import Mathlib

/-!
Verification development for the vuex-i18n translation-resolution engine
(source files: dist/vuex-i18n.es.js and src/vuex-i18n-plugin.js).

The engine is embedded shallowly:
* JavaScript runtime values appearing in the engine (translation values,
  pluralization arguments, replacement tables) are modelled by JSVal.
  JS numbers are modelled by the rationals; no floating-point behaviour
  is relevant to any rule of the engine (the pluralization rules use
  only comparison and the binary remainder operator on small values).
* JS objects are modelled by association lists with unique keys
  maintained by setKeyA (property assignment replaces in place,
  otherwise appends, matching enumeration order of JS objects).
* Operations that can throw a TypeError (property access on null or
  undefined, calling a missing method such as split or trim on a value
  that lacks it) return Except String; pure total operations return
  their value directly.
-/

set_option autoImplicit false

/-- Model of the JavaScript values handled by the engine. -/
inductive JSVal where
  | str (s : String)
  | num (q : ℚ)
  | boolean (b : Bool)
  | null
  | undef
  | arr (elems : List JSVal)
  | obj (fields : List (String × JSVal))

/-- The JS typeof operator on modelled values (typeof null is "object"). -/
def jsTypeof : JSVal → String
  | .str _ => "string"
  | .num _ => "number"
  | .boolean _ => "boolean"
  | .null => "object"
  | .undef => "undefined"
  | .arr _ => "object"
  | .obj _ => "object"

/-- isArray from the source: Array === obj.constructor (false for null,
undefined and all primitives). -/
def isArrayV : JSVal → Bool
  | .arr _ => true
  | _ => false

def isNullV : JSVal → Bool
  | .null => true
  | _ => false

def isUndefV : JSVal → Bool
  | .undef => true
  | _ => false

def isPlainStr : JSVal → Bool
  | .str _ => true
  | _ => false

/-- Lookup of an own property in an association-list model of a JS object. -/
def lookupA {α : Type} : List (String × α) → String → Option α
  | [], _ => none
  | (k, v) :: rest, key => if k = key then some v else lookupA rest key

/-- hasOwnProperty. -/
def hasOwnA {α : Type} (l : List (String × α)) (key : String) : Bool :=
  (lookupA l key).isSome

/-- JS property assignment on an object: replaces the value of an existing
key in place, otherwise appends the new key at the end (JS enumeration
order for string keys). -/
def setKeyA {α : Type} (l : List (String × α)) (key : String) (v : α) :
    List (String × α) :=
  if (lookupA l key).isSome then
    l.map (fun p => if p.1 = key then (key, v) else p)
  else
    l ++ [(key, v)]

/-- A sequence of property assignments applied in order. -/
def applyWrites {α : Type} (l : List (String × α)) (ws : List (String × α)) :
    List (String × α) :=
  ws.foldl (fun acc p => setKeyA acc p.1 p.2) l

/-- The JS delete operator on a key (objects have unique keys, so removing
every binding of the key models deletion). -/
def removeKeyA {α : Type} (l : List (String × α)) (key : String) :
    List (String × α) :=
  l.filter (fun p => p.1 ≠ key)

/-- Property keys are strings in JS; a null key is coerced to "null"
(as in translations.hasOwnProperty(fallback) with fallback === null). -/
def jsKey : Option String → String
  | some s => s
  | none => "null"

/-- Check whether sep is a prefix of l and if so return the remainder. -/
def stripSep : List Char → List Char → Option (List Char)
  | [], l => some l
  | _ :: _, [] => none
  | s :: ss, c :: cs => if s = c then stripSep ss cs else none

theorem stripSep_length {sep l rem : List Char} (h : stripSep sep l = some rem) :
    rem.length + sep.length = l.length := by
  induction sep generalizing l rem with
  | nil => cases l <;> simp [stripSep] at h <;> simp [h]
  | cons s ss ih =>
    cases l with
    | nil => simp [stripSep] at h
    | cons c cs =>
      simp only [stripSep] at h
      split at h
      · have := ih h
        simp only [List.length_cons]
        omega
      · exact absurd h (by simp)

/-- Extend the first piece of a split result with a leading character. -/
def consHead (c : Char) : List (List Char) → List (List Char)
  | [] => [[c]]
  | piece :: pieces => (c :: piece) :: pieces

theorem consHead_ne_nil (c : Char) (l : List (List Char)) : consHead c l ≠ [] := by
  cases l <;> simp [consHead]

/-- String.prototype.split with a non-empty string separator, on char
lists: scans left to right, splitting at each non-overlapping occurrence
of the separator.  The fuel argument makes the recursion structural (so
that the definition computes by kernel reduction); every recursive call
strictly shrinks the character list, so fuel equal to the list length
(as jsSplitChars passes) never runs out, and by stripSep_length the
remainder after a separator match is also below the remaining fuel. -/
def jsSplitGo (sep : List Char) : ℕ → List Char → List (List Char)
  | _, [] => [[]]
  | 0, _ :: _ => [[]]
  | fuel + 1, c :: rest =>
    if sep.isEmpty then consHead c (jsSplitGo sep fuel rest)
    else
      match stripSep sep (c :: rest) with
      | some rem => [] :: jsSplitGo sep fuel rem
      | none => consHead c (jsSplitGo sep fuel rest)

def jsSplitChars (sep l : List Char) : List (List Char) :=
  jsSplitGo sep l.length l

theorem jsSplitGo_ne_nil (sep : List Char) (fuel : ℕ) (l : List Char) :
    jsSplitGo sep fuel l ≠ [] := by
  match fuel, l with
  | _, [] => simp [jsSplitGo]
  | 0, _ :: _ => simp [jsSplitGo]
  | fuel + 1, c :: rest =>
    simp only [jsSplitGo]
    split
    · exact consHead_ne_nil _ _
    · split
      · simp
      · exact consHead_ne_nil _ _

theorem jsSplitChars_ne_nil (sep l : List Char) : jsSplitChars sep l ≠ [] :=
  jsSplitGo_ne_nil sep l.length l

/-- String.prototype.split with a non-empty separator. -/
def jsSplit (s : String) (sep : String) : List String :=
  (jsSplitChars sep.toList s.toList).map List.asString

theorem jsSplit_ne_nil (s sep : String) : jsSplit s sep ≠ [] := by
  simp [jsSplit, jsSplitChars_ne_nil]

/-- The regex word-character class backslash-w: ASCII letters, digits and
underscore. -/
def isWordChar (c : Char) : Bool :=
  ('a' ≤ c && c ≤ 'z') || ('A' ≤ c && c ≤ 'Z') || ('0' ≤ c && c ≤ '9') || c = '_'

/-- Split a character list at the first occurrence of the closing
delimiter: returns the characters before it and the characters after it. -/
def findCloseSplit (endC : Char) : List Char → Option (List Char × List Char)
  | [] => none
  | c :: rest =>
    if c = endC then some ([], rest)
    else
      match findCloseSplit endC rest with
      | some (pre, post) => some (c :: pre, post)
      | none => none

theorem findCloseSplit_length {endC : Char} {l pre post : List Char}
    (h : findCloseSplit endC l = some (pre, post)) :
    pre.length + 1 + post.length = l.length := by
  induction l generalizing pre post with
  | nil => simp [findCloseSplit] at h
  | cons c rest ih =>
    simp only [findCloseSplit] at h
    split at h
    · cases h
      simp
      omega
    · revert h
      split
      · intro h
        cases h
        have := ih (by assumption)
        simp only [List.length_cons]
        omega
      · intro h
        exact absurd h (by simp)

/-- Placeholder substitution over the characters of a translation string,
modelling one pass of translation.replace(matcher, fn) with the matcher
built from single-character identifiers (the default configuration): the
pattern matches the start identifier, then either a single word character
or a word character followed lazily by further non-newline characters, up
to the first end identifier.  A matched placeholder whose key is present
in the replacements is substituted; an unmatched placeholder is left
verbatim (with a diagnostic notice, a console side effect not modelled);
positions at which the pattern cannot match are copied unchanged and
scanning resumes at the next character, as the global regex does. -/
def substGo (repl : List (String × String)) (startC endC : Char) :
    ℕ → List Char → List Char
  | _, [] => []
  | 0, l => l
  | fuel + 1, c :: rest =>
    if c = startC then
      match findCloseSplit endC rest with
      | some (pre, post) =>
        match pre with
        | p0 :: ptail =>
          if isWordChar p0 && !ptail.contains '\n' then
            (match lookupA repl (p0 :: ptail).asString with
             | some v => v.toList
             | none => c :: ((p0 :: ptail) ++ [endC])) ++
              substGo repl startC endC fuel post
          else c :: substGo repl startC endC fuel rest
        | [] => c :: substGo repl startC endC fuel rest
      | none => c :: substGo repl startC endC fuel rest
    else c :: substGo repl startC endC fuel rest

/-- Placeholder scan entry point: fuel equal to the input length makes
the recursion structural and never runs out (each step consumes at least
one character; after a placeholder match, findCloseSplit_length shows
the remaining text is strictly shorter than the fuel spent). -/
def substCore (repl : List (String × String)) (startC endC : Char)
    (l : List Char) : List Char :=
  substGo repl startC endC l.length l

/-- Placeholder substitution on a translation string. -/
def substituteStr (ids : Char × Char) (repl : List (String × String))
    (s : String) : String :=
  (substCore repl ids.1 ids.2 s.toList).asString

/-- The replace closure from renderFn: values without a replace method
are returned unchanged (the translation.replace guard), but reading the
replace property of null or undefined throws a TypeError; strings get
placeholder substitution. -/
def jsReplace (ids : Char × Char) (repl : List (String × String)) :
    JSVal → Except String JSVal
  | .null => .error "TypeError"
  | .undef => .error "TypeError"
  | .str s => .ok (.str (substituteStr ids repl s))
  | v => .ok v

/-- Array.prototype.map over a function that can throw: the first throw
propagates. -/
def mapExcept (f : JSVal → Except String JSVal) :
    List JSVal → Except String (List JSVal)
  | [] => .ok []
  | x :: xs =>
    match f x with
    | .error e => .error e
    | .ok y =>
      match mapExcept f xs with
      | .error e => .error e
      | .ok ys => .ok (y :: ys)

/-- The resolvePlaceholders closure from render: arrays are mapped
element-wise through replace, strings are replaced once, and every other
value makes the closure return undefined (no branch assigns a result). -/
def resolvePlaceholders (ids : Char × Char) (repl : List (String × String)) :
    JSVal → Except String JSVal
  | .arr xs => (mapExcept (jsReplace ids repl) xs).map JSVal.arr
  | .str s => jsReplace ids repl (.str s)
  | _ => .ok JSVal.undef

/-- Truncation toward zero, as JS coerces the quotient in the remainder
operator. -/
def ratTrunc (q : ℚ) : ℤ :=
  if 0 ≤ q then q.floor else q.ceil

/-- The JS remainder operator a % b (sign follows the dividend). -/
def jsMod (a b : ℚ) : ℚ :=
  a - b * (ratTrunc (a / b) : ℚ)

/-- The one-form language group of plurals.getTranslationIndex (first
switch group; note that "zh" appears here and again in the two-form
group below, exactly as the source has a duplicate case label). -/
def oneFormCodes : List String :=
  ["ay", "bo", "cgg", "dz", "fa", "id", "ja", "jbo", "ka", "kk", "km",
   "ko", "ky", "lo", "ms", "my", "sah", "su", "th", "tt", "ug", "vi",
   "wo", "zh"]

/-- The two-form group containing the duplicate "zh" label. -/
def twoFormCodes : List String :=
  ["ach", "ak", "am", "arn", "br", "fil", "fr", "gun", "ln", "mfe",
   "mg", "mi", "oc", "pt_BR", "tg", "ti", "tr", "uz", "wa", "zh"]

/-- The three-form group be/bs/hr/ru/sr/uk. -/
def threeFormSlavicCodes : List String :=
  ["be", "bs", "hr", "ru", "sr", "uk"]

/-- The cs/sk group. -/
def czSkCodes : List String := ["cs", "sk"]

/-- plurals.getTranslationIndex(languageCode, n): dispatch on the
language code through the switch groups in source order (so the first
group containing the code wins, as a JS switch matches the first case
label), with the default two-form rule for unrecognized codes.  The
count is a JS number, modelled as a rational. -/
def getTranslationIndex (languageCode : String) (n : ℚ) : ℕ :=
  if languageCode ∈ oneFormCodes then 0
  else if languageCode = "is" then
    if jsMod n 10 ≠ 1 ∨ jsMod n 100 = 11 then 1 else 0
  else if languageCode = "jv" then
    if n ≠ 0 then 1 else 0
  else if languageCode = "mk" then
    if n = 1 ∨ jsMod n 10 = 1 then 0 else 1
  else if languageCode ∈ twoFormCodes then
    if n > 1 then 1 else 0
  else if languageCode = "lv" then
    if jsMod n 10 = 1 ∧ jsMod n 100 ≠ 11 then 0 else if n ≠ 0 then 1 else 2
  else if languageCode = "lt" then
    if jsMod n 10 = 1 ∧ jsMod n 100 ≠ 11 then 0
    else if jsMod n 10 ≥ 2 ∧ (jsMod n 100 < 10 ∨ jsMod n 100 ≥ 20) then 1
    else 2
  else if languageCode ∈ threeFormSlavicCodes then
    if jsMod n 10 = 1 ∧ jsMod n 100 ≠ 11 then 0
    else if jsMod n 10 ≥ 2 ∧ jsMod n 10 ≤ 4 ∧ (jsMod n 100 < 10 ∨ jsMod n 100 ≥ 20) then 1
    else 2
  else if languageCode = "mnk" then
    if n = 0 then 0 else if n = 1 then 1 else 2
  else if languageCode = "ro" then
    if n = 1 then 0
    else if n = 0 ∨ (jsMod n 100 > 0 ∧ jsMod n 100 < 20) then 1
    else 2
  else if languageCode = "pl" then
    if n = 1 then 0
    else if jsMod n 10 ≥ 2 ∧ jsMod n 10 ≤ 4 ∧ (jsMod n 100 < 10 ∨ jsMod n 100 ≥ 20) then 1
    else 2
  else if languageCode ∈ czSkCodes then
    if n = 1 then 0 else if n ≥ 2 ∧ n ≤ 4 then 1 else 2
  else if languageCode = "csb" then
    if n = 1 then 0
    else if jsMod n 10 ≥ 2 ∧ jsMod n 10 ≤ 4 ∧ (jsMod n 100 < 10 ∨ jsMod n 100 ≥ 20) then 1
    else 2
  else if languageCode = "sl" then
    if jsMod n 100 = 1 then 0
    else if jsMod n 100 = 2 then 1
    else if jsMod n 100 = 3 ∨ jsMod n 100 = 4 then 2
    else 3
  else if languageCode = "mt" then
    if n = 1 then 0
    else if n = 0 ∨ (jsMod n 100 > 1 ∧ jsMod n 100 < 11) then 1
    else if jsMod n 100 > 10 ∧ jsMod n 100 < 20 then 2
    else 3
  else if languageCode = "gd" then
    if n = 1 ∨ n = 11 then 0
    else if n = 2 ∨ n = 12 then 1
    else if n > 2 ∧ n < 20 then 2
    else 3
  else if languageCode = "cy" then
    if n = 1 then 0 else if n = 2 then 1 else if n ≠ 8 ∧ n ≠ 11 then 2 else 3
  else if languageCode = "kw" then
    if n = 1 then 0 else if n = 2 then 1 else if n = 3 then 2 else 3
  else if languageCode = "ga" then
    if n = 1 then 0
    else if n = 2 then 1
    else if n > 2 ∧ n < 7 then 2
    else if n > 6 ∧ n < 11 then 3
    else 4
  else if languageCode = "ar" then
    if n = 0 then 0
    else if n = 1 then 1
    else if n = 2 then 2
    else if jsMod n 100 ≥ 3 ∧ jsMod n 100 ≤ 10 then 3
    else if jsMod n 100 ≥ 11 then 4
    else 5
  else if n ≠ 1 then 1 else 0

/-- The number of plural forms declared (in the source comments) for the
rule family a language code dispatches to, resolved through the same
first-match group order as the switch (so the duplicated "zh" counts as
the one-form family that its first case label reaches). -/
def pluralFormsCount (languageCode : String) : ℕ :=
  if languageCode ∈ oneFormCodes then 1
  else if languageCode = "is" then 2
  else if languageCode = "jv" then 2
  else if languageCode = "mk" then 2
  else if languageCode ∈ twoFormCodes then 2
  else if languageCode = "lv" then 3
  else if languageCode = "lt" then 3
  else if languageCode ∈ threeFormSlavicCodes then 3
  else if languageCode = "mnk" then 3
  else if languageCode = "ro" then 3
  else if languageCode = "pl" then 3
  else if languageCode ∈ czSkCodes then 3
  else if languageCode = "csb" then 3
  else if languageCode = "sl" then 4
  else if languageCode = "mt" then 4
  else if languageCode = "gd" then 4
  else if languageCode = "cy" then 4
  else if languageCode = "kw" then 4
  else if languageCode = "ga" then 5
  else if languageCode = "ar" then 6
  else 2

/-- Every language code appearing as a case label in the rule table. -/
def supportedPluralCodes : List String :=
  oneFormCodes ++ ["is", "jv", "mk"] ++ twoFormCodes ++ ["lv", "lt"] ++
    threeFormSlavicCodes ++ ["mnk", "ro", "pl"] ++ czSkCodes ++
    ["csb", "sl", "mt", "gd", "cy", "kw", "ga", "ar"]

/-- String.prototype.trim: strip leading and trailing whitespace
(modelled with the character whitespace predicate; JS trims the same
ASCII whitespace plus some exotic Unicode spaces not relevant here). -/
def jsStrTrim (s : String) : String :=
  (((s.toList.dropWhile Char.isWhitespace).reverse.dropWhile
      Char.isWhitespace).reverse).asString

/-- Calling .trim() on a value: only strings have the method; on any
other value the call (or, for null and undefined, the property access)
throws a TypeError. -/
def jsTrim : JSVal → Except String JSVal
  | .str s => .ok (.str (jsStrTrim s))
  | _ => .error "TypeError"

/-- The pluralization tail of render: select variants[index], falling
back to variants[0] (with a diagnostic notice) when that element is
undefined, and trim the selected variant. -/
def pluralSelect (locale : String) (countQ : ℚ) (pluralizations : List JSVal) :
    Except String JSVal :=
  let index := getTranslationIndex locale countQ
  let elem := (pluralizations.get? index).getD JSVal.undef
  if isUndefV elem then jsTrim ((pluralizations.get? 0).getD JSVal.undef)
  else jsTrim elem

/-- The render closure from renderFn (identifiers and warnings are the
configuration captured by the closure; warnings only control console
diagnostics, which are side effects not modelled).

Control flow mirrors the source: pluralization === null returns the
substituted candidate; a pluralization whose typeof is not "number"
warns and returns the candidate; otherwise the candidate is used as the
variant list if it is a non-empty array, else it is split on ":::" — a
call that throws a TypeError if the candidate is not a string (for
example the undefined produced for non-string non-array translations,
or an empty array, neither of which has a split method). -/
def render (ids : Char × Char) (locale : String) (translation : JSVal)
    (replacements : List (String × String)) (pluralization : JSVal) :
    Except String JSVal :=
  match pluralization with
  | .null => resolvePlaceholders ids replacements translation
  | .num countQ =>
    match resolvePlaceholders ids replacements translation with
    | .error e => .error e
    | .ok resolved =>
      match resolved with
      | .arr (x :: xs) => pluralSelect locale countQ (x :: xs)
      | .str s => pluralSelect locale countQ ((jsSplit s ":::").map JSVal.str)
      | _ => .error "TypeError"
  | _ => resolvePlaceholders ids replacements translation

mutual

/-- The writes toReturn[...] = ... that flattenTranslations performs for
one enumerated tree, in execution order.  The for-in loop enumerates an
object's own properties in insertion order; for-in over null (reached
when a tree stores a null value, since typeof null is "object")
iterates nothing, as does for-in over the other non-object values.  All
enumerated entries are own properties, so the hasOwnProperty guard in
the loop always passes. -/
def flattenWrites : JSVal → List (String × JSVal)
  | .obj fields => flattenFieldsWrites fields
  | _ => []
termination_by t => (sizeOf t, 0)

/-- The writes produced by a list of enumerated entries. -/
def flattenFieldsWrites : List (String × JSVal) → List (String × JSVal)
  | [] => []
  | (k, v) :: rest => flattenEntryWrites k v ++ flattenFieldsWrites rest
termination_by l => (sizeOf l, 0)

/-- The writes produced by one entry: arrays are copied verbatim under
the unmodified key (the element string check only warns); values whose
typeof is "object" (plain objects, but also null) are flattened
recursively and re-keyed with the parent key and a dot; every other
value is copied verbatim. -/
def flattenEntryWrites (k : String) (v : JSVal) : List (String × JSVal) :=
  if isArrayV v then [(k, v)]
  else if jsTypeof v = "object" then
    (applyWrites [] (flattenWrites v)).map (fun p => (k ++ "." ++ p.1, p.2))
  else [(k, v)]
termination_by (sizeOf v, 1)

end

/-- flattenTranslations from the store module: iterate the tree and apply
all writes to an initially empty object. -/
def flattenTranslations (t : JSVal) : List (String × JSVal) :=
  applyWrites [] (flattenWrites t)

/-- State of the i18n vuex module: the current locale, the fallback
locale (both null until set) and the per-locale flat translation
tables. -/
structure I18nState where
  locale : Option String
  fallback : Option String
  translations : List (String × List (String × JSVal))

/-- The SET_LOCALE mutation. -/
def SET_LOCALE (st : I18nState) (locale : Option String) : I18nState :=
  { st with locale := locale }

/-- The SET_FALLBACK_LOCALE mutation. -/
def SET_FALLBACK_LOCALE (st : I18nState) (locale : Option String) : I18nState :=
  { st with fallback := locale }

/-- The ADD_LOCALE mutation: flatten the payload and merge it over any
existing entry for the locale (Object.assign with the new translations
last), otherwise install it as a new entry. -/
def ADD_LOCALE (st : I18nState) (locale : String) (translations : JSVal) :
    I18nState :=
  let flat := flattenTranslations translations
  match lookupA st.translations locale with
  | some existing =>
    { st with translations := setKeyA st.translations locale (applyWrites existing flat) }
  | none =>
    { st with translations := setKeyA st.translations locale flat }

/-- The REPLACE_LOCALE mutation: flatten the payload and overwrite the
per-locale entry entirely. -/
def REPLACE_LOCALE (st : I18nState) (locale : String) (translations : JSVal) :
    I18nState :=
  { st with translations := setKeyA st.translations locale (flattenTranslations translations) }

/-- The REMOVE_LOCALE mutation: when the locale is present, clear the
active locale if it is the removed one, and delete the per-locale entry
from a copy of the translations object. -/
def REMOVE_LOCALE (st : I18nState) (locale : String) : I18nState :=
  if (lookupA st.translations locale).isSome then
    { st with
      locale := if st.locale = some locale then none else st.locale,
      translations := removeKeyA st.translations locale }
  else st

/-- translations[l] && translations[l][key]: the value stored for a key
under a locale entry (present exactly when both hasOwnProperty checks of
the source pass). -/
def tableGet (translations : List (String × List (String × JSVal)))
    (locale key : String) : Option JSVal :=
  match lookupA translations locale with
  | some entry => lookupA entry key
  | none => none

/-- translateInLanguage after argument-shape resolution (key,
defaultValue, options and pluralization already extracted from the
variadic argument list).  The locale argument is null or a string; a
falsy locale (null or the empty string) returns the default value
unrendered.  The onTranslationNotFound callback fired on the
not-found path is fire-and-forget and never alters the synchronous
return value, so it does not appear in the value-level model. -/
def translateInLanguage (ids : Char × Char) (st : I18nState)
    (locale : Option String) (key defaultValue : String)
    (options : List (String × String)) (pluralization : JSVal) :
    Except String JSVal :=
  match locale with
  | none => .ok (.str defaultValue)
  | some loc =>
    if loc = "" then .ok (.str defaultValue)
    else
      let translations := st.translations
      let localeRegional := jsSplit loc "-"
      let fallbackKey := jsKey st.fallback
      let fallbackStep : Except String JSVal :=
        if (lookupA translations fallbackKey).isSome = false then
          render ids loc (.str defaultValue) options pluralization
        else
          match tableGet translations fallbackKey key with
          | none => render ids fallbackKey (.str defaultValue) options pluralization
          | some v => render ids loc v options pluralization
      match tableGet translations loc key with
      | some v => render ids loc v options pluralization
      | none =>
        if localeRegional.length > 1 then
          match tableGet translations (localeRegional.headD "") key with
          | some v => render ids (localeRegional.headD "") v options pluralization
          | none => fallbackStep
        else fallbackStep

/-- checkKeyExists(key, scope): existence check along the same fallback
order, short-circuiting per scope.  The current locale is read from the
store and may be null; the first hasOwnProperty check coerces a null
locale to the property key "null", but locale.split throws a TypeError
when the locale is null and the scope is not strict. -/
def checkKeyExists (st : I18nState) (key : String) (scope : String) :
    Except String Bool :=
  let translations := st.translations
  if (tableGet translations (jsKey st.locale) key).isSome then .ok true
  else if scope = "strict" then .ok false
  else
    match st.locale with
    | none => .error "TypeError"
    | some loc =>
      let localeRegional := jsSplit loc "-"
      if localeRegional.length > 1 ∧
          (tableGet translations (localeRegional.headD "") key).isSome then .ok true
      else if scope = "locale" then .ok false
      else if (tableGet translations (jsKey st.fallback) key).isSome then .ok true
      else .ok false

/-- checkLocaleExists(locale). -/
def checkLocaleExists (st : I18nState) (locale : String) : Bool :=
  (lookupA st.translations locale).isSome

/-! ### Association-list and write lemmas -/

theorem lookupA_append {α : Type} (l l' : List (String × α)) (k : String) :
    lookupA (l ++ l') k = ((lookupA l k).orElse (fun _ => lookupA l' k)) := by
  induction l with
  | nil => simp [lookupA]
  | cons p rest ih =>
    obtain ⟨k₁, v₁⟩ := p
    by_cases h : k₁ = k <;> simp [lookupA, h, ih]

theorem lookupA_mem {α : Type} {l : List (String × α)} {k : String} {v : α}
    (h : lookupA l k = some v) : (k, v) ∈ l := by
  induction l with
  | nil => simp [lookupA] at h
  | cons p rest ih =>
    obtain ⟨k₁, v₁⟩ := p
    by_cases hk : k₁ = k
    · subst hk
      simp [lookupA] at h
      simp [h]
    · simp [lookupA, hk] at h
      simp [ih h]

theorem lookupA_map_overwrite {α : Type} (l : List (String × α)) (k : String) (v : α) :
    lookupA (l.map (fun p => if p.1 = k then (k, v) else p)) k =
      (lookupA l k).map (fun _ => v) := by
  induction l with
  | nil => simp [lookupA]
  | cons p rest ih =>
    obtain ⟨k₁, v₁⟩ := p
    simp only [List.map_cons]
    by_cases hk : k₁ = k
    · subst hk
      rw [if_pos rfl]
      simp [lookupA]
    · rw [if_neg (show ¬((k₁, v₁).1 = k) from hk)]
      simp [lookupA, hk, ih]

theorem lookupA_map_overwrite_ne {α : Type} (l : List (String × α)) (k k' : String)
    (v : α) (h : k' ≠ k) :
    lookupA (l.map (fun p => if p.1 = k then (k, v) else p)) k' = lookupA l k' := by
  induction l with
  | nil => simp [lookupA]
  | cons p rest ih =>
    obtain ⟨k₁, v₁⟩ := p
    simp only [List.map_cons]
    by_cases hk : k₁ = k
    · subst hk
      rw [if_pos rfl]
      simp only [lookupA]
      rw [if_neg (fun hh : k₁ = k' => h hh.symm), if_neg (fun hh : k₁ = k' => h hh.symm)]
      exact ih
    · rw [if_neg (show ¬((k₁, v₁).1 = k) from hk)]
      simp only [lookupA]
      rw [ih]

theorem lookupA_setKeyA_self {α : Type} (l : List (String × α)) (k : String) (v : α) :
    lookupA (setKeyA l k v) k = some v := by
  unfold setKeyA
  split
  · rename_i hsome
    rw [lookupA_map_overwrite]
    cases h : lookupA l k
    · rw [h] at hsome
      cases hsome
    · simp
  · rw [lookupA_append]
    rename_i hnone
    have hn : lookupA l k = none := by
      cases h : lookupA l k
      · rfl
      · rw [h] at hnone
        simp at hnone
    simp [hn, lookupA, Option.orElse]

theorem lookupA_setKeyA_ne {α : Type} (l : List (String × α)) (k k' : String) (v : α)
    (h : k' ≠ k) : lookupA (setKeyA l k v) k' = lookupA l k' := by
  unfold setKeyA
  split
  · exact lookupA_map_overwrite_ne l k k' v h
  · rw [lookupA_append]
    cases hl : lookupA l k'
    · simp [lookupA, if_neg (fun hh : k = k' => h hh.symm), Option.orElse]
    · simp [Option.orElse]

theorem lookupA_removeKeyA_self {α : Type} (l : List (String × α)) (k : String) :
    lookupA (removeKeyA l k) k = none := by
  induction l with
  | nil => simp [removeKeyA, lookupA]
  | cons p rest ih =>
    obtain ⟨k₁, v₁⟩ := p
    by_cases hk : k₁ = k
    · simpa [removeKeyA, hk] using ih
    · simpa [removeKeyA, lookupA, hk] using ih

theorem lookupA_removeKeyA_ne {α : Type} (l : List (String × α)) (k k' : String)
    (h : k' ≠ k) : lookupA (removeKeyA l k) k' = lookupA l k' := by
  induction l with
  | nil => simp [removeKeyA, lookupA]
  | cons p rest ih =>
    obtain ⟨k₁, v₁⟩ := p
    simp only [removeKeyA, List.filter_cons] at ih ⊢
    by_cases hk : k₁ = k
    · subst hk
      have h1 : ¬ k₁ = k' := fun hh => h hh.symm
      simp only [lookupA]
      rw [if_neg h1]
      simpa using ih
    · by_cases hk' : k₁ = k'
      · subst hk'
        simp [lookupA, hk]
      · have hp : (decide ((k₁, v₁).1 ≠ k)) = true := by simp [hk]
        simp only [hp, if_true, cond_true]
        simp only [lookupA]
        simp only [if_neg hk']
        simpa using ih

theorem applyWrites_cons {α : Type} (acc : List (String × α)) (w : String × α)
    (ws : List (String × α)) :
    applyWrites acc (w :: ws) = applyWrites (setKeyA acc w.1 w.2) ws := rfl

theorem applyWrites_append {α : Type} (acc : List (String × α))
    (ws ws' : List (String × α)) :
    applyWrites acc (ws ++ ws') = applyWrites (applyWrites acc ws) ws' := by
  simp [applyWrites, List.foldl_append]

theorem lookupA_applyWrites_not_written {α : Type} (acc : List (String × α))
    (ws : List (String × α)) (k : String) (h : ∀ p ∈ ws, p.1 ≠ k) :
    lookupA (applyWrites acc ws) k = lookupA acc k := by
  induction ws generalizing acc with
  | nil => rfl
  | cons w rest ih =>
    rw [applyWrites_cons, ih _ (fun p hp => h p (by simp [hp]))]
    exact lookupA_setKeyA_ne _ _ _ _ (fun hh => h w (by simp) hh.symm)

theorem not_written_of_applyWrites_none {α : Type} (acc : List (String × α))
    (ws : List (String × α)) (k : String)
    (h : lookupA (applyWrites acc ws) k = none) :
    (∀ p ∈ ws, p.1 ≠ k) ∧ lookupA acc k = none := by
  induction ws generalizing acc with
  | nil => exact ⟨by simp, h⟩
  | cons w rest ih =>
    rw [applyWrites_cons] at h
    obtain ⟨hrest, hset⟩ := ih _ h
    have hw : w.1 ≠ k := by
      intro hh
      rw [← hh] at hset
      rw [lookupA_setKeyA_self] at hset
      cases hset
    refine ⟨?_, ?_⟩
    · intro p hp
      rcases List.mem_cons.mp hp with h1 | h2
      · rw [h1]; exact hw
      · exact hrest p h2
    · rw [← lookupA_setKeyA_ne acc w.1 k w.2 (fun hh => hw hh.symm)]
      exact hset

/-! ### Well-formed translation values and non-throwing render -/

theorem exceptIsOk_ok {ε α : Type} (a : α) : (Except.ok a : Except ε α).isOk = true := rfl

theorem exceptIsOk_error {ε α : Type} (e : ε) : (Except.error e : Except ε α).isOk = false := rfl

theorem getElemOpt_mem {α : Type} {l : List α} {n : ℕ} {a : α}
    (h : l[n]? = some a) : a ∈ l := by
  obtain ⟨hn, rfl⟩ := List.getElem?_eq_some.mp h
  exact List.getElem_mem hn

/-- A translation value matching the data-model invariant, restricted to
shapes the pluralizing renderer can always consume: a string, or a
non-empty array of strings. -/
def WFTranslationVal : JSVal → Bool
  | .str _ => true
  | .arr elems => !elems.isEmpty && elems.all isPlainStr
  | _ => false

/-- A store whose per-locale tables hold only well-formed values. -/
def WFStore (st : I18nState) : Bool :=
  st.translations.all (fun p => p.2.all (fun q => WFTranslationVal q.2))

theorem mapExcept_jsReplace_all_str (ids : Char × Char)
    (repl : List (String × String)) (xs : List JSVal)
    (h : xs.all isPlainStr = true) :
    ∃ ys, mapExcept (jsReplace ids repl) xs = .ok ys ∧
      ys.all isPlainStr = true ∧ ys.length = xs.length := by
  induction xs with
  | nil => exact ⟨[], rfl, rfl, rfl⟩
  | cons x rest ih =>
    simp only [List.all_cons, Bool.and_eq_true] at h
    obtain ⟨hx, hrest⟩ := h
    obtain ⟨ys, hys, hall, hlen⟩ := ih hrest
    cases x with
    | str s =>
      refine ⟨.str (substituteStr ids repl s) :: ys, ?_, ?_, ?_⟩
      · simp only [mapExcept, jsReplace, hys]
      · simp only [List.all_cons, hall, isPlainStr, Bool.and_self]
      · simp [hlen]
    | num q => simp [isPlainStr] at hx
    | boolean b => simp [isPlainStr] at hx
    | null => simp [isPlainStr] at hx
    | undef => simp [isPlainStr] at hx
    | arr e => simp [isPlainStr] at hx
    | obj f => simp [isPlainStr] at hx

theorem pluralSelect_ok (loc : String) (q : ℚ) (l : List JSVal)
    (hne : l ≠ []) (h : l.all isPlainStr = true) :
    (pluralSelect loc q l).isOk = true := by
  have hstr : ∀ x ∈ l, ∃ s, x = JSVal.str s := by
    intro x hx
    have := List.all_eq_true.mp h x hx
    cases x <;> simp [isPlainStr] at this ⊢
  unfold pluralSelect
  cases hg : l[getTranslationIndex loc q]? with
  | some x =>
    obtain ⟨s, rfl⟩ := hstr x (getElemOpt_mem hg)
    simp [hg, isUndefV, jsTrim, exceptIsOk_ok]
  | none =>
    cases l with
    | nil => exact absurd rfl hne
    | cons y ys =>
      obtain ⟨s, rfl⟩ := hstr y (by simp)
      simp [hg, isUndefV, jsTrim, exceptIsOk_ok]

theorem render_ok_of_WF (ids : Char × Char) (loc : String)
    (repl : List (String × String)) (p v : JSVal)
    (h : WFTranslationVal v = true) :
    (render ids loc v repl p).isOk = true := by
  cases v with
  | str s =>
    cases p with
    | num q =>
      simp only [render, resolvePlaceholders, jsReplace]
      apply pluralSelect_ok
      · simp [jsSplit_ne_nil]
      · simp [List.all_eq_true, isPlainStr]
    | null => simp [render, resolvePlaceholders, jsReplace, exceptIsOk_ok]
    | str s' => simp [render, resolvePlaceholders, jsReplace, exceptIsOk_ok]
    | boolean b => simp [render, resolvePlaceholders, jsReplace, exceptIsOk_ok]
    | undef => simp [render, resolvePlaceholders, jsReplace, exceptIsOk_ok]
    | arr e => simp [render, resolvePlaceholders, jsReplace, exceptIsOk_ok]
    | obj f => simp [render, resolvePlaceholders, jsReplace, exceptIsOk_ok]
  | arr elems =>
    cases elems with
    | nil => simp [WFTranslationVal] at h
    | cons e es =>
      simp only [WFTranslationVal, Bool.and_eq_true] at h
      obtain ⟨ys, hys, hyall, hylen⟩ :=
        mapExcept_jsReplace_all_str ids repl (e :: es) h.2
      cases ys with
      | nil => simp at hylen
      | cons y ys' =>
        cases p with
        | num q =>
          simp only [render, resolvePlaceholders, hys, Except.map]
          exact pluralSelect_ok _ _ _ (by simp) hyall
        | null => simp [render, resolvePlaceholders, hys, Except.map, exceptIsOk_ok]
        | str s' => simp [render, resolvePlaceholders, hys, Except.map, exceptIsOk_ok]
        | boolean b => simp [render, resolvePlaceholders, hys, Except.map, exceptIsOk_ok]
        | undef => simp [render, resolvePlaceholders, hys, Except.map, exceptIsOk_ok]
        | arr e2 => simp [render, resolvePlaceholders, hys, Except.map, exceptIsOk_ok]
        | obj f => simp [render, resolvePlaceholders, hys, Except.map, exceptIsOk_ok]
  | num q => simp [WFTranslationVal] at h
  | boolean b => simp [WFTranslationVal] at h
  | null => simp [WFTranslationVal] at h
  | undef => simp [WFTranslationVal] at h
  | obj f => simp [WFTranslationVal] at h

theorem render_ok_arr_str_nocount (ids : Char × Char) (loc : String)
    (repl : List (String × String)) (p : JSVal) (elems : List JSVal)
    (hall : elems.all isPlainStr = true)
    (hp : isNullV p = true ∨ jsTypeof p ≠ "number") :
    (render ids loc (.arr elems) repl p).isOk = true := by
  obtain ⟨ys, hys, -, -⟩ := mapExcept_jsReplace_all_str ids repl elems hall
  cases p with
  | num q =>
    rcases hp with h1 | h2
    · simp [isNullV] at h1
    · simp [jsTypeof] at h2
  | null => simp [render, resolvePlaceholders, hys, Except.map, exceptIsOk_ok]
  | str s' => simp [render, resolvePlaceholders, hys, Except.map, exceptIsOk_ok]
  | boolean b => simp [render, resolvePlaceholders, hys, Except.map, exceptIsOk_ok]
  | undef => simp [render, resolvePlaceholders, hys, Except.map, exceptIsOk_ok]
  | arr e => simp [render, resolvePlaceholders, hys, Except.map, exceptIsOk_ok]
  | obj f => simp [render, resolvePlaceholders, hys, Except.map, exceptIsOk_ok]

theorem WFStore_tableGet {st : I18nState} {l k : String} {v : JSVal}
    (h : WFStore st = true)
    (hv : tableGet st.translations l k = some v) :
    WFTranslationVal v = true := by
  unfold tableGet at hv
  cases he : lookupA st.translations l with
  | none => rw [he] at hv; cases hv
  | some entry =>
    rw [he] at hv
    have hmem := lookupA_mem he
    have hentry := List.all_eq_true.mp h _ hmem
    exact List.all_eq_true.mp hentry _ (lookupA_mem hv)

theorem translateInLanguage_ok (ids : Char × Char) (st : I18nState)
    (locale : Option String) (key defaultValue : String)
    (options : List (String × String)) (p : JSVal)
    (h : WFStore st = true) :
    (translateInLanguage ids st locale key defaultValue options p).isOk = true := by
  cases locale with
  | none => rfl
  | some loc =>
    simp only [translateInLanguage]
    split
    · rfl
    · split
      · rename_i v hexact
        exact render_ok_of_WF _ _ _ _ _ (WFStore_tableGet h hexact)
      · split
        · split
          · rename_i v hpar
            exact render_ok_of_WF _ _ _ _ _ (WFStore_tableGet h hpar)
          · split
            · exact render_ok_of_WF _ _ _ _ _ rfl
            · split
              · exact render_ok_of_WF _ _ _ _ _ rfl
              · rename_i v hfbk
                exact render_ok_of_WF _ _ _ _ _ (WFStore_tableGet h hfbk)
        · split
          · exact render_ok_of_WF _ _ _ _ _ rfl
          · split
            · exact render_ok_of_WF _ _ _ _ _ rfl
            · rename_i v hfbk
              exact render_ok_of_WF _ _ _ _ _ (WFStore_tableGet h hfbk)

theorem checkKeyExists_ok_of_locale (st : I18nState) (key scope L : String)
    (hL : st.locale = some L) :
    (checkKeyExists st key scope).isOk = true := by
  simp only [checkKeyExists, hL]
  repeat' split
  all_goals rfl

/-! ### Scope characterizations of checkKeyExists -/

theorem jsKey_some (s : String) : jsKey (some s) = s := rfl

theorem checkKeyExists_strict_eq (st : I18nState) (L key : String)
    (hL : st.locale = some L) :
    checkKeyExists st key "strict" =
      .ok ((tableGet st.translations L key).isSome) := by
  simp only [checkKeyExists, hL, jsKey_some]
  by_cases h1 : (tableGet st.translations L key).isSome <;> simp [h1]

theorem checkKeyExists_locale_eq (st : I18nState) (L key : String)
    (hL : st.locale = some L) :
    checkKeyExists st key "locale" =
      .ok ((tableGet st.translations L key).isSome ||
        (decide ((jsSplit L "-").length > 1) &&
          (tableGet st.translations ((jsSplit L "-").headD "") key).isSome)) := by
  simp only [checkKeyExists, hL, jsKey_some]
  by_cases h1 : (tableGet st.translations L key).isSome
  · simp [h1]
  · by_cases hlen : (jsSplit L "-").length > 1
    · by_cases h2 :
          (tableGet st.translations ((jsSplit L "-").head?.getD "") key).isSome
      · simp [h1, hlen, h2]
      · simp [h1, hlen, h2]
    · simp [h1, hlen]

theorem checkKeyExists_fallback_eq (st : I18nState) (L key : String)
    (hL : st.locale = some L) :
    checkKeyExists st key "fallback" =
      .ok ((tableGet st.translations L key).isSome ||
        (decide ((jsSplit L "-").length > 1) &&
          (tableGet st.translations ((jsSplit L "-").headD "") key).isSome) ||
        (tableGet st.translations (jsKey st.fallback) key).isSome) := by
  simp only [checkKeyExists, hL, jsKey_some]
  by_cases h1 : (tableGet st.translations L key).isSome
  · simp [h1]
  · by_cases hlen : (jsSplit L "-").length > 1
    · by_cases h2 :
          (tableGet st.translations ((jsSplit L "-").head?.getD "") key).isSome
      · simp [h1, hlen, h2]
      · by_cases h3 : (tableGet st.translations (jsKey st.fallback) key).isSome <;>
          simp [h1, hlen, h2, h3]
    · by_cases h3 : (tableGet st.translations (jsKey st.fallback) key).isSome <;>
        simp [h1, hlen, h3]

/-! ### Claim theorems -/

/-- C10: for every integer count n, the pluralization index of "zh" is 0:
the one-form rule group listing "zh" precedes the two-form group that
lists "zh" again, so the duplicate label is unreachable and Chinese never
selects index 1. -/
theorem c10_zh_always_zero :
    (∀ n : ℤ, getTranslationIndex "zh" (n : ℚ) = 0) ∧
    "zh" ∈ oneFormCodes ∧ "zh" ∈ twoFormCodes :=
  ⟨fun _ => rfl, by decide, by decide⟩

/-- C9: when locale L is present in the translation table, REMOVE_LOCALE
deletes exactly L's entry, unsets the active locale iff it equals L, and
leaves every other entry and the fallback locale unchanged. -/
theorem c9_removeLocale (st : I18nState) (L : String)
    (h : (lookupA st.translations L).isSome = true) :
    lookupA (REMOVE_LOCALE st L).translations L = none ∧
    (∀ M : String, M ≠ L →
      lookupA (REMOVE_LOCALE st L).translations M = lookupA st.translations M) ∧
    (REMOVE_LOCALE st L).fallback = st.fallback ∧
    (REMOVE_LOCALE st L).locale = (if st.locale = some L then none else st.locale) := by
  unfold REMOVE_LOCALE
  rw [if_pos h]
  exact ⟨lookupA_removeKeyA_self _ _,
    fun M hM => lookupA_removeKeyA_ne _ _ _ hM, rfl, rfl⟩

/-- Witness for C9 at a concrete two-locale store with active locale "en". -/
theorem c9_removeLocale_witness :
    lookupA (REMOVE_LOCALE ⟨some "en", some "de",
        [("en", [("k", JSVal.str "v")]), ("fr", [("k2", JSVal.str "w")])]⟩
      "en").translations "en" = none ∧
    lookupA (REMOVE_LOCALE ⟨some "en", some "de",
        [("en", [("k", JSVal.str "v")]), ("fr", [("k2", JSVal.str "w")])]⟩
      "en").translations "fr" = some [("k2", JSVal.str "w")] ∧
    (REMOVE_LOCALE ⟨some "en", some "de",
        [("en", [("k", JSVal.str "v")]), ("fr", [("k2", JSVal.str "w")])]⟩
      "en").fallback = some "de" ∧
    (REMOVE_LOCALE ⟨some "en", some "de",
        [("en", [("k", JSVal.str "v")]), ("fr", [("k2", JSVal.str "w")])]⟩
      "en").locale = none := by
  have T := c9_removeLocale ⟨some "en", some "de",
    [("en", [("k", JSVal.str "v")]), ("fr", [("k2", JSVal.str "w")])]⟩ "en" rfl
  refine ⟨T.1, ?_, T.2.2.1, ?_⟩
  · rw [T.2.1 "fr" (by decide)]
    rfl
  · rw [T.2.2.2]
    rfl

/-- C8: with an active locale set, strict scope checks only the exact
locale, locale scope adds the regional parent, fallback scope adds the
fallback locale; in particular when the key lives only in the fallback
entry, strict reports false and fallback reports true. -/
theorem c8_keyExists_scopes (st : I18nState) (L key : String)
    (hL : st.locale = some L)
    (hEx : (tableGet st.translations L key).isSome = false)
    (hPar : (jsSplit L "-").length > 1 →
      (tableGet st.translations ((jsSplit L "-").headD "") key).isSome = false)
    (hFb : (tableGet st.translations (jsKey st.fallback) key).isSome = true) :
    checkKeyExists st key "strict" = .ok false ∧
    checkKeyExists st key "fallback" = .ok true ∧
    (∀ st2 : I18nState, ∀ L2 key2 : String, st2.locale = some L2 →
      checkKeyExists st2 key2 "strict" =
        .ok ((tableGet st2.translations L2 key2).isSome) ∧
      checkKeyExists st2 key2 "locale" =
        .ok ((tableGet st2.translations L2 key2).isSome ||
          (decide ((jsSplit L2 "-").length > 1) &&
            (tableGet st2.translations ((jsSplit L2 "-").headD "") key2).isSome)) ∧
      checkKeyExists st2 key2 "fallback" =
        .ok ((tableGet st2.translations L2 key2).isSome ||
          (decide ((jsSplit L2 "-").length > 1) &&
            (tableGet st2.translations ((jsSplit L2 "-").headD "") key2).isSome) ||
          (tableGet st2.translations (jsKey st2.fallback) key2).isSome)) := by
  refine ⟨?_, ?_, fun st2 L2 key2 h2 =>
    ⟨checkKeyExists_strict_eq st2 L2 key2 h2,
     checkKeyExists_locale_eq st2 L2 key2 h2,
     checkKeyExists_fallback_eq st2 L2 key2 h2⟩⟩
  · rw [checkKeyExists_strict_eq st L key hL, hEx]
  · rw [checkKeyExists_fallback_eq st L key hL, hEx, hFb]
    by_cases hlen : (jsSplit L "-").length > 1
    · rw [hPar hlen]
      simp [hlen]
    · simp [hlen]

/-- Witness for C8: key "k" exists only in the fallback locale "en" while
the active locale is "fr". -/
theorem c8_keyExists_scopes_witness :
    checkKeyExists ⟨some "fr", some "en", [("en", [("k", JSVal.str "v")])]⟩
      "k" "strict" = .ok false ∧
    checkKeyExists ⟨some "fr", some "en", [("en", [("k", JSVal.str "v")])]⟩
      "k" "fallback" = .ok true := by
  have T := c8_keyExists_scopes
    ⟨some "fr", some "en", [("en", [("k", JSVal.str "v")])]⟩ "fr" "k"
    rfl rfl (fun hlen => absurd hlen (by decide)) rfl
  exact ⟨T.1, T.2.1⟩

/-- C7: a regional locale whose exact entry misses the key falls back to
the parent language entry, rendered with the parent language code. -/
theorem c7_regional_fallback (ids : Char × Char) (st : I18nState)
    (loc key defaultValue : String) (opts : List (String × String))
    (p v : JSVal)
    (hloc : loc ≠ "")
    (hexact : tableGet st.translations loc key = none)
    (hlen : (jsSplit loc "-").length > 1)
    (hpar : tableGet st.translations ((jsSplit loc "-").headD "") key = some v) :
    translateInLanguage ids st (some loc) key defaultValue opts p =
      render ids ((jsSplit loc "-").headD "") v opts p := by
  simp only [translateInLanguage, if_neg hloc, hexact, if_pos hlen, hpar]

/-- Witness for C7: the spec example resolve("de-CH", "greeting", "Hi")
with a table containing only a "de" entry. -/
theorem c7_regional_fallback_witness :
    translateInLanguage ('{', '}')
      ⟨some "de-CH", none, [("de", [("greeting", JSVal.str "Hallo")])]⟩
      (some "de-CH") "greeting" "Hi" [] JSVal.null =
    render ('{', '}') "de" (JSVal.str "Hallo") [] JSVal.null := by
  have T := c7_regional_fallback ('{', '}')
    ⟨some "de-CH", none, [("de", [("greeting", JSVal.str "Hallo")])]⟩
    "de-CH" "greeting" "Hi" [] JSVal.null (JSVal.str "Hallo")
    (by decide) rfl (by decide) rfl
  exact T

/-- C2: when exact and regional lookups miss but the fallback entry has
the key, the fallback value is rendered with the originally requested
locale, so pluralization uses the requested locale's rule. -/
theorem c2_fallback_uses_requested_locale (ids : Char × Char) (st : I18nState)
    (loc key defaultValue : String) (opts : List (String × String))
    (p v : JSVal)
    (hloc : loc ≠ "")
    (hexact : tableGet st.translations loc key = none)
    (hreg : (jsSplit loc "-").length ≤ 1 ∨
      tableGet st.translations ((jsSplit loc "-").headD "") key = none)
    (hfb : tableGet st.translations (jsKey st.fallback) key = some v) :
    translateInLanguage ids st (some loc) key defaultValue opts p =
      render ids loc v opts p := by
  have hfbsome : ¬((lookupA st.translations (jsKey st.fallback)).isSome = false) := by
    unfold tableGet at hfb
    cases he : lookupA st.translations (jsKey st.fallback)
    · rw [he] at hfb; cases hfb
    · simp [he]
  simp only [translateInLanguage, if_neg hloc, hexact]
  by_cases hlen : (jsSplit loc "-").length > 1
  · rcases hreg with h1 | h2
    · omega
    · rw [if_pos hlen]
      simp only [h2, if_neg hfbsome, hfb]
  · rw [if_neg hlen]
    simp only [if_neg hfbsome, hfb]

/-- Witness for C2: requested locale "fr" (two-form rule: count 0 gives
index 0) with the value coming from fallback locale "en" (whose default
rule would give index 1 at count 0): variant "one" is selected, proving
the requested locale's rule was used. -/
theorem c2_fallback_uses_requested_locale_witness :
    translateInLanguage ('{', '}')
      ⟨some "fr", some "en", [("en", [("k", JSVal.str "one:::many")])]⟩
      (some "fr") "k" "d" [] (JSVal.num 0) =
      render ('{', '}') "fr" (JSVal.str "one:::many") [] (JSVal.num 0) ∧
    translateInLanguage ('{', '}')
      ⟨some "fr", some "en", [("en", [("k", JSVal.str "one:::many")])]⟩
      (some "fr") "k" "d" [] (JSVal.num 0) = Except.ok (JSVal.str "one") := by
  have T := c2_fallback_uses_requested_locale ('{', '}')
    ⟨some "fr", some "en", [("en", [("k", JSVal.str "one:::many")])]⟩
    "fr" "k" "d" [] (JSVal.num 0) (JSVal.str "one:::many")
    (by decide) rfl (Or.inl (by decide)) rfl
  refine ⟨T, ?_⟩
  rw [T]
  rfl

/-- C4 counterexample: render("en", 5, {}) with no pluralization count
returns JS undefined (resolvePlaceholders has no branch for non-string,
non-array values), not the raw value 5 as the claim states. -/
theorem c4_counterexample :
    render ('{', '}') "en" (JSVal.num 5) [] JSVal.null = Except.ok JSVal.undef ∧
    render ('{', '}') "en" (JSVal.num 5) [] JSVal.null ≠ Except.ok (JSVal.num 5) := by
  have h1 : render ('{', '}') "en" (JSVal.num 5) [] JSVal.null =
      Except.ok JSVal.undef := rfl
  exact ⟨h1, fun h => JSVal.noConfusion (Except.ok.inj (h1.symm.trans h))⟩

/-- C4 amended: for every rawValue that is neither a string nor an array
and every replacements mapping, render with no pluralization count
returns JS undefined rather than the raw value: the top-level render
drops non-string, non-array leaves (only the inner replace helper
returns non-string inputs unchanged). -/
theorem c4_render_non_string_yields_undefined (ids : Char × Char) (loc : String)
    (v : JSVal) (repl : List (String × String))
    (h1 : isArrayV v = false) (h2 : jsTypeof v ≠ "string") :
    render ids loc v repl JSVal.null = Except.ok JSVal.undef := by
  cases v with
  | str s => simp [jsTypeof] at h2
  | arr e => simp [isArrayV] at h1
  | num q => rfl
  | boolean b => rfl
  | null => rfl
  | undef => rfl
  | obj f => rfl

/-- Witness for amended C4 at a boolean raw value. -/
theorem c4_render_non_string_yields_undefined_witness :
    render ('{', '}') "en" (JSVal.boolean true) [("k", "v")] JSVal.null =
      Except.ok JSVal.undef :=
  c4_render_non_string_yields_undefined ('{', '}') "en" (JSVal.boolean true)
    [("k", "v")] rfl (by decide)

/-- C5 counterexample: a fractional count 5/2 has JS type "number", so
the typeof guard does not reject it: pluralization proceeds (the
candidate "one:::many" is split and variant index 1 is selected by the
default rule since 5/2 is not 1), instead of returning the substituted
candidate as-is as the claim states. -/
theorem c5_counterexample :
    render ('{', '}') "en" (JSVal.str "one:::many") []
        (JSVal.num ⟨5, 2, by decide, by decide⟩) =
      Except.ok (JSVal.str "many") ∧
    render ('{', '}') "en" (JSVal.str "one:::many") []
        (JSVal.num ⟨5, 2, by decide, by decide⟩) ≠
      Except.ok (JSVal.str "one:::many") := by
  have h1 : render ('{', '}') "en" (JSVal.str "one:::many") []
        (JSVal.num ⟨5, 2, by decide, by decide⟩) =
      Except.ok (JSVal.str "many") := rfl
  refine ⟨h1, fun h => ?_⟩
  have h2 := Except.ok.inj (h1.symm.trans h)
  have h3 : "many" = "one:::many" := by injection h2
  exact absurd h3 (by decide)

/-- C5 amended: render rejects pluralization only when the count's JS
type is not "number" (null aside): for such counts it performs no split
and no variant selection and returns the substituted candidate, exactly
the no-count result; fractional numeric counts are not rejected and do
undergo pluralization (see the counterexample). -/
theorem c5_non_number_count_returns_candidate (ids : Char × Char) (loc s : String)
    (repl : List (String × String)) (p : JSVal)
    (h1 : isNullV p = false) (h2 : jsTypeof p ≠ "number") :
    render ids loc (.str s) repl p = Except.ok (.str (substituteStr ids repl s)) ∧
    render ids loc (.str s) repl p = render ids loc (.str s) repl JSVal.null := by
  cases p with
  | null => simp [isNullV] at h1
  | num q => simp [jsTypeof] at h2
  | str s2 => exact ⟨rfl, rfl⟩
  | boolean b => exact ⟨rfl, rfl⟩
  | undef => exact ⟨rfl, rfl⟩
  | arr e => exact ⟨rfl, rfl⟩
  | obj f => exact ⟨rfl, rfl⟩

/-- Witness for amended C5 with a string-typed count. -/
theorem c5_non_number_count_returns_candidate_witness :
    render ('{', '}') "en" (JSVal.str "hello {name}") [("name", "Ada")]
        (JSVal.str "x") =
      Except.ok (JSVal.str (substituteStr ('{', '}') [("name", "Ada")]
        "hello {name}")) ∧
    render ('{', '}') "en" (JSVal.str "hello {name}") [("name", "Ada")]
        (JSVal.str "x") =
      render ('{', '}') "en" (JSVal.str "hello {name}") [("name", "Ada")]
        JSVal.null :=
  c5_non_number_count_returns_candidate ('{', '}') "en" "hello {name}"
    [("name", "Ada")] (JSVal.str "x") rfl (by decide)

/-! ### Flatten decomposition lemmas -/

theorem flattenFieldsWrites_append (xs ys : List (String × JSVal)) :
    flattenFieldsWrites (xs ++ ys) =
      flattenFieldsWrites xs ++ flattenFieldsWrites ys := by
  induction xs with
  | nil => simp [flattenFieldsWrites]
  | cons p rest ih =>
    obtain ⟨k, v⟩ := p
    simp [flattenFieldsWrites, ih]

theorem flattenEntryWrites_scalar (k : String) (v : JSVal)
    (hArr : isArrayV v = false) (hObj : jsTypeof v ≠ "object") :
    flattenEntryWrites k v = [(k, v)] := by
  simp only [flattenEntryWrites]
  rw [if_neg (by simp [hArr]), if_neg hObj]

theorem flattenWrites_obj (fields : List (String × JSVal)) :
    flattenWrites (JSVal.obj fields) = flattenFieldsWrites fields := by
  simp [flattenWrites]

theorem flattenFieldsWrites_cons (k : String) (v : JSVal)
    (rest : List (String × JSVal)) :
    flattenFieldsWrites ((k, v) :: rest) =
      flattenEntryWrites k v ++ flattenFieldsWrites rest := by
  simp [flattenFieldsWrites]

/-- C6 counterexample: the tree with a single null-valued entry flattens
to the empty mapping — null has JS type "object", so flatten recurses
into it (iterating nothing) instead of copying it verbatim, and the key
is dropped. -/
theorem c6_counterexample :
    flattenTranslations (JSVal.obj [("a", JSVal.null)]) = [] ∧
    lookupA (flattenTranslations (JSVal.obj [("a", JSVal.null)])) "a" = none := by
  have h : flattenTranslations (JSVal.obj [("a", JSVal.null)]) = [] := by
    simp [flattenTranslations, flattenWrites, flattenFieldsWrites,
      flattenEntryWrites, applyWrites, jsTypeof, isArrayV]
  exact ⟨h, by rw [h]; rfl⟩

/-- C6 amended: flatten copies a scalar entry verbatim under its
unmodified key when the value is neither an array nor of JS object type
(null has object type and is dropped via recursion into an empty
mapping), provided no later entry of the tree writes the same flattened
key. -/
theorem c6_flatten_scalar_copied (pre post : List (String × JSVal))
    (k : String) (v : JSVal)
    (hArr : isArrayV v = false) (hObj : jsTypeof v ≠ "object")
    (hpost : lookupA (flattenTranslations (JSVal.obj post)) k = none) :
    lookupA (flattenTranslations (JSVal.obj (pre ++ (k, v) :: post))) k = some v := by
  unfold flattenTranslations at hpost ⊢
  rw [flattenWrites_obj] at hpost ⊢
  rw [flattenFieldsWrites_append, flattenFieldsWrites_cons,
    flattenEntryWrites_scalar k v hArr hObj]
  have hnw := (not_written_of_applyWrites_none [] (flattenFieldsWrites post) k hpost).1
  rw [applyWrites_append]
  rw [show ([(k, v)] ++ flattenFieldsWrites post : List (String × JSVal)) =
    (k, v) :: flattenFieldsWrites post from rfl]
  rw [applyWrites_cons]
  rw [lookupA_applyWrites_not_written _ _ _ hnw]
  exact lookupA_setKeyA_self _ _ _

/-- Witness for amended C6: the scalar entry ("a", "s") sits between an
unrelated entry and a later null-valued entry; flatten keeps it. -/
theorem c6_flatten_scalar_copied_witness :
    lookupA (flattenTranslations (JSVal.obj
      [("x", JSVal.str "1"), ("a", JSVal.str "s"), ("b", JSVal.null)])) "a" =
      some (JSVal.str "s") := by
  have T := c6_flatten_scalar_copied [("x", JSVal.str "1")] [("b", JSVal.null)]
    "a" (JSVal.str "s") rfl (by decide)
    (by simp [flattenTranslations, flattenWrites, flattenFieldsWrites,
      flattenEntryWrites, applyWrites, jsTypeof, isArrayV, lookupA])
  simpa using T

/-! ### Pluralization rule table bounds -/

/-- Every rule in the table returns a literal index below its family's
declared form count, for every rational count (both definitions branch
on the same group structure, so the branches align). -/
theorem getTranslationIndex_lt_pluralFormsCount (code : String) (n : ℚ) :
    getTranslationIndex code n < pluralFormsCount code := by
  unfold getTranslationIndex pluralFormsCount
  by_cases g1 : code ∈ oneFormCodes
  · simp only [if_pos g1]
    first
    | (split_ifs <;> norm_num)
    | norm_num
  · simp only [if_neg g1]
    by_cases g2 : code = "is"
    · simp only [if_pos g2]
      first
      | (split_ifs <;> norm_num)
      | norm_num
    · simp only [if_neg g2]
      by_cases g3 : code = "jv"
      · simp only [if_pos g3]
        first
        | (split_ifs <;> norm_num)
        | norm_num
      · simp only [if_neg g3]
        by_cases g4 : code = "mk"
        · simp only [if_pos g4]
          first
          | (split_ifs <;> norm_num)
          | norm_num
        · simp only [if_neg g4]
          by_cases g5 : code ∈ twoFormCodes
          · simp only [if_pos g5]
            first
            | (split_ifs <;> norm_num)
            | norm_num
          · simp only [if_neg g5]
            by_cases g6 : code = "lv"
            · simp only [if_pos g6]
              first
              | (split_ifs <;> norm_num)
              | norm_num
            · simp only [if_neg g6]
              by_cases g7 : code = "lt"
              · simp only [if_pos g7]
                first
                | (split_ifs <;> norm_num)
                | norm_num
              · simp only [if_neg g7]
                by_cases g8 : code ∈ threeFormSlavicCodes
                · simp only [if_pos g8]
                  first
                  | (split_ifs <;> norm_num)
                  | norm_num
                · simp only [if_neg g8]
                  by_cases g9 : code = "mnk"
                  · simp only [if_pos g9]
                    first
                    | (split_ifs <;> norm_num)
                    | norm_num
                  · simp only [if_neg g9]
                    by_cases g10 : code = "ro"
                    · simp only [if_pos g10]
                      first
                      | (split_ifs <;> norm_num)
                      | norm_num
                    · simp only [if_neg g10]
                      by_cases g11 : code = "pl"
                      · simp only [if_pos g11]
                        first
                        | (split_ifs <;> norm_num)
                        | norm_num
                      · simp only [if_neg g11]
                        by_cases g12 : code ∈ czSkCodes
                        · simp only [if_pos g12]
                          first
                          | (split_ifs <;> norm_num)
                          | norm_num
                        · simp only [if_neg g12]
                          by_cases g13 : code = "csb"
                          · simp only [if_pos g13]
                            first
                            | (split_ifs <;> norm_num)
                            | norm_num
                          · simp only [if_neg g13]
                            by_cases g14 : code = "sl"
                            · simp only [if_pos g14]
                              first
                              | (split_ifs <;> norm_num)
                              | norm_num
                            · simp only [if_neg g14]
                              by_cases g15 : code = "mt"
                              · simp only [if_pos g15]
                                first
                                | (split_ifs <;> norm_num)
                                | norm_num
                              · simp only [if_neg g15]
                                by_cases g16 : code = "gd"
                                · simp only [if_pos g16]
                                  first
                                  | (split_ifs <;> norm_num)
                                  | norm_num
                                · simp only [if_neg g16]
                                  by_cases g17 : code = "cy"
                                  · simp only [if_pos g17]
                                    first
                                    | (split_ifs <;> norm_num)
                                    | norm_num
                                  · simp only [if_neg g17]
                                    by_cases g18 : code = "kw"
                                    · simp only [if_pos g18]
                                      first
                                      | (split_ifs <;> norm_num)
                                      | norm_num
                                    · simp only [if_neg g18]
                                      by_cases g19 : code = "ga"
                                      · simp only [if_pos g19]
                                        first
                                        | (split_ifs <;> norm_num)
                                        | norm_num
                                      · simp only [if_neg g19]
                                        by_cases g20 : code = "ar"
                                        · simp only [if_pos g20]
                                          first
                                          | (split_ifs <;> norm_num)
                                          | norm_num
                                        · simp only [if_neg g20]
                                          split_ifs <;> norm_num

set_option maxHeartbeats 1000000 in
theorem mem_supportedPluralCodes_iff (c : String) :
    c ∈ supportedPluralCodes ↔
      (c ∈ oneFormCodes ∨ c = "is" ∨ c = "jv" ∨ c = "mk" ∨ c ∈ twoFormCodes ∨
       c = "lv" ∨ c = "lt" ∨ c ∈ threeFormSlavicCodes ∨ c = "mnk" ∨ c = "ro" ∨
       c = "pl" ∨ c ∈ czSkCodes ∨ c = "csb" ∨ c = "sl" ∨ c = "mt" ∨ c = "gd" ∨
       c = "cy" ∨ c = "kw" ∨ c = "ga" ∨ c = "ar") := by
  simp only [supportedPluralCodes, List.mem_append, List.mem_cons,
    List.not_mem_nil, or_false, or_assoc]

/-- A code appearing in no case label takes the default two-form rule. -/
theorem getTranslationIndex_default (code : String)
    (h : code ∉ supportedPluralCodes) (n : ℚ) :
    getTranslationIndex code n = if n ≠ 1 then 1 else 0 := by
  rw [mem_supportedPluralCodes_iff] at h
  push_neg at h
  obtain ⟨h1, h2, h3, h4, h5, h6, h7, h8, h9, h10, h11, h12, h13, h14, h15,
    h16, h17, h18, h19, h20⟩ := h
  unfold getTranslationIndex
  rw [if_neg h1, if_neg h2, if_neg h3, if_neg h4, if_neg h5, if_neg h6,
    if_neg h7, if_neg h8, if_neg h9, if_neg h10, if_neg h11, if_neg h12,
    if_neg h13, if_neg h14, if_neg h15, if_neg h16, if_neg h17, if_neg h18,
    if_neg h19, if_neg h20]

theorem pluralFormsCount_bounds (code : String) :
    1 ≤ pluralFormsCount code ∧ pluralFormsCount code ≤ 6 := by
  unfold pluralFormsCount
  by_cases f1 : code ∈ oneFormCodes
  · simp only [if_pos f1]
    omega
  · simp only [if_neg f1]
    by_cases f2 : code = "is"
    · simp only [if_pos f2]
      omega
    · simp only [if_neg f2]
      by_cases f3 : code = "jv"
      · simp only [if_pos f3]
        omega
      · simp only [if_neg f3]
        by_cases f4 : code = "mk"
        · simp only [if_pos f4]
          omega
        · simp only [if_neg f4]
          by_cases f5 : code ∈ twoFormCodes
          · simp only [if_pos f5]
            omega
          · simp only [if_neg f5]
            by_cases f6 : code = "lv"
            · simp only [if_pos f6]
              omega
            · simp only [if_neg f6]
              by_cases f7 : code = "lt"
              · simp only [if_pos f7]
                omega
              · simp only [if_neg f7]
                by_cases f8 : code ∈ threeFormSlavicCodes
                · simp only [if_pos f8]
                  omega
                · simp only [if_neg f8]
                  by_cases f9 : code = "mnk"
                  · simp only [if_pos f9]
                    omega
                  · simp only [if_neg f9]
                    by_cases f10 : code = "ro"
                    · simp only [if_pos f10]
                      omega
                    · simp only [if_neg f10]
                      by_cases f11 : code = "pl"
                      · simp only [if_pos f11]
                        omega
                      · simp only [if_neg f11]
                        by_cases f12 : code ∈ czSkCodes
                        · simp only [if_pos f12]
                          omega
                        · simp only [if_neg f12]
                          by_cases f13 : code = "csb"
                          · simp only [if_pos f13]
                            omega
                          · simp only [if_neg f13]
                            by_cases f14 : code = "sl"
                            · simp only [if_pos f14]
                              omega
                            · simp only [if_neg f14]
                              by_cases f15 : code = "mt"
                              · simp only [if_pos f15]
                                omega
                              · simp only [if_neg f15]
                                by_cases f16 : code = "gd"
                                · simp only [if_pos f16]
                                  omega
                                · simp only [if_neg f16]
                                  by_cases f17 : code = "cy"
                                  · simp only [if_pos f17]
                                    omega
                                  · simp only [if_neg f17]
                                    by_cases f18 : code = "kw"
                                    · simp only [if_pos f18]
                                      omega
                                    · simp only [if_neg f18]
                                      by_cases f19 : code = "ga"
                                      · simp only [if_pos f19]
                                        omega
                                      · simp only [if_neg f19]
                                        by_cases f20 : code = "ar"
                                        · simp only [if_pos f20]
                                          omega
                                        · simp only [if_neg f20]
                                          omega

/-- C3: the pluralization index resolver is total (it is a function of
its two arguments with no error path); for every language code in the
rule table and every integer count in [-5, 20] the index is strictly
below the declared form count of the code's rule family, each family
declaring between 1 and 6 forms; and codes outside the table take the
default rule: index 0 exactly at count 1, else 1. -/
theorem c3_pluralIndex_total_and_bounded :
    (∀ code ∈ supportedPluralCodes, ∀ n : ℤ, -5 ≤ n → n ≤ 20 →
      getTranslationIndex code (n : ℚ) < pluralFormsCount code) ∧
    (∀ code : String, code ∉ supportedPluralCodes → ∀ n : ℤ,
      getTranslationIndex code (n : ℚ) = if n = 1 then 0 else 1) ∧
    (∀ code ∈ supportedPluralCodes,
      1 ≤ pluralFormsCount code ∧ pluralFormsCount code ≤ 6) := by
  refine ⟨fun code _ n _ _ => getTranslationIndex_lt_pluralFormsCount code (n : ℚ),
    ?_, ?_⟩
  · intro code h n
    rw [getTranslationIndex_default code h (n : ℚ)]
    by_cases hn : n = 1
    · subst hn
      norm_num
    · have hq : ((n : ℚ) ≠ 1) := by exact_mod_cast hn
      simp [hn, hq]
  · intro code _
    exact pluralFormsCount_bounds code

/-- Witness for C3: the Russian three-form rule at count 3, and the
default rule for the unknown code "xx" at count 5. -/
theorem c3_pluralIndex_total_and_bounded_witness :
    getTranslationIndex "ru" ((3 : ℤ) : ℚ) < pluralFormsCount "ru" ∧
    getTranslationIndex "xx" ((5 : ℤ) : ℚ) = 1 ∧
    1 ≤ pluralFormsCount "ru" ∧ pluralFormsCount "ru" ≤ 6 := by
  have T := c3_pluralIndex_total_and_bounded
  have hB := T.2.1 "xx" (by decide) 5
  have hC := T.2.2 "ru" (by decide)
  exact ⟨T.1 "ru" (by decide) 3 (by decide) (by decide), by rw [hB]; rfl,
    hC.1, hC.2⟩

/-- C1 counterexample: three crashes contradicting the claim.  render
with a numeric count throws a TypeError when the candidate value is a
number (resolvePlaceholders yields undefined, and undefined.split is a
TypeError) or an empty array (arrays have no split method); and
keyExists with the default "fallback" scope throws a TypeError when no
active locale is set (locale.split on null). -/
theorem c1_counterexample :
    render ('{', '}') "en" (JSVal.num 5) [] (JSVal.num 2) =
      Except.error "TypeError" ∧
    render ('{', '}') "en" (JSVal.arr []) [] (JSVal.num 2) =
      Except.error "TypeError" ∧
    checkKeyExists ⟨none, some "en", [("en", [("greeting", JSVal.str "hello")])]⟩
      "greeting" "fallback" = Except.error "TypeError" :=
  ⟨rfl, rfl, rfl⟩

/-- C1 amended: the repository mutations and localeExists are total
functions and every listed operation terminates, but freedom from
TypeErrors needs the carve-outs the counterexample forces: render
terminates normally for every count when the translation value is a
string or a non-empty array of strings, and for a possibly-empty array
of strings when no numeric count is supplied; translate and translateIn
terminate normally on any store whose values are strings or non-empty
arrays of strings; keyExists terminates normally whenever an active
locale is set. -/
theorem c1_no_fatal_error_when_wellformed :
    (∀ (ids : Char × Char) (loc : String) (repl : List (String × String))
      (p v : JSVal), WFTranslationVal v = true →
      (render ids loc v repl p).isOk = true) ∧
    (∀ (ids : Char × Char) (loc : String) (repl : List (String × String))
      (p : JSVal) (elems : List JSVal), elems.all isPlainStr = true →
      (isNullV p = true ∨ jsTypeof p ≠ "number") →
      (render ids loc (.arr elems) repl p).isOk = true) ∧
    (∀ (ids : Char × Char) (st : I18nState) (locale : Option String)
      (key defaultValue : String) (options : List (String × String))
      (p : JSVal), WFStore st = true →
      (translateInLanguage ids st locale key defaultValue options p).isOk = true) ∧
    (∀ (st : I18nState) (key scope L : String), st.locale = some L →
      (checkKeyExists st key scope).isOk = true) :=
  ⟨fun ids loc repl p v h => render_ok_of_WF ids loc repl p v h,
   fun ids loc repl p elems h hp => render_ok_arr_str_nocount ids loc repl p elems h hp,
   fun ids st locale key dv opts p h => translateInLanguage_ok ids st locale key dv opts p h,
   fun st key scope L hL => checkKeyExists_ok_of_locale st key scope L hL⟩

/-- Witness for amended C1 at concrete inputs exercising each conjunct. -/
theorem c1_no_fatal_error_when_wellformed_witness :
    (render ('{', '}') "en" (JSVal.str "a:::b") [] (JSVal.num 2)).isOk = true ∧
    (render ('{', '}') "en" (JSVal.arr []) [] JSVal.null).isOk = true ∧
    (translateInLanguage ('{', '}')
      ⟨some "en", none, [("en", [("k", JSVal.str "v")])]⟩
      (some "en") "k" "d" [] (JSVal.num 3)).isOk = true ∧
    (checkKeyExists ⟨some "en", none, []⟩ "k" "fallback").isOk = true := by
  have T := c1_no_fatal_error_when_wellformed
  exact ⟨T.1 ('{', '}') "en" [] (JSVal.num 2) (JSVal.str "a:::b") rfl,
    T.2.1 ('{', '}') "en" [] JSVal.null [] rfl (Or.inl rfl),
    T.2.2.1 ('{', '}') ⟨some "en", none, [("en", [("k", JSVal.str "v")])]⟩
      (some "en") "k" "d" [] (JSVal.num 3) rfl,
    T.2.2.2 ⟨some "en", none, []⟩ "k" "fallback" "en" rfl⟩
